import Mathlib

/-!
Verification development for the SignalNoiseGradients training script
(`src/main.py`).  The orchestration in `run_experiment` and the `__main__`
block is embedded shallowly: the mutable model and the side effects
(TensorBoard scalars, the run-log file, the jax platform switch, the
learning-rate search) become an explicit event trace plus explicit state
passing.  Components that live in the `sngrad` package (whose sources are
not part of the repository snapshot) are modelled from the specification
and are marked as such in their doc comments.
-/

namespace Sngrad

/-- Observable actions of one `run_experiment` call, in program order:
the jax platform switch (main.py line 31-32), the learning-rate search
(line 34-37), one optimizer step per training batch (line 59-61), the
TensorBoard scalars (lines 64 and 71-74), and the run-log text record
(line 76-77).  `phaseInit`/`phaseDone` mark the start and the end of the
call. -/
inductive Event (α : Type) where
  | phaseInit : Event α
  | setPlatform (platform : String) : Event α
  | lrSearch (best : α) : Event α
  | optStep (epoch batchIdx : Nat) (labels : List (List α)) (lr : α) : Event α
  | scalar (tag : String) (value : α) (stepIdx : Nat) : Event α
  | logRecord (epoch : Nat) (time trainLoss testLoss trainAcc testAcc : α) : Event α
  | phaseDone : Event α
deriving DecidableEq

/-- Modelled from the spec: `one_hot` of `sngrad.utils` is not under `src/`.
Per the spec's Batch data model, labels are "one-hot encoded
(batch_size, num_targets)": each label `c` becomes a row of `numTargets`
entries that is `1` at position `c` and `0` elsewhere. -/
def one_hot {α : Type} [Zero α] [One α] (ys : List Nat) (numTargets : Nat) :
    List (List α) :=
  ys.map fun c => (List.range numTargets).map fun j => if j = c then (1 : α) else 0

/-- The nested `lr_search` dictionary of the hyperparameter dict
(main.py lines 91-96). -/
structure LrSearchConfig (α : Type) where
  lr_min : Option α
  lr_max : Option α
  num_steps : Nat
  num_epochs : Nat
deriving DecidableEq

/-- The hyperparameter dictionary (main.py lines 87-107), one field per key. -/
structure Hparams (α : Type) where
  dataset : String
  layer_sizes : List Nat
  lr_search : LrSearchConfig α
  step_size : Option α
  num_epochs : Nat
  batch_size : Nat
  num_targets : Nat
  num_workers : Nat
  stats_every_num_epochs : Nat
  optimizer : Option String
  device : String
deriving DecidableEq

/-- Top-level keys of the hyperparameter dict literal (main.py lines 87-107). -/
def hparamsKeys : List String :=
  ["dataset", "layer_sizes", "lr_search", "step_size", "num_epochs", "batch_size",
   "num_targets", "num_workers", "stats_every_num_epochs", "optimizer", "device"]

/-- Keys of the nested `lr_search` dict literal (main.py lines 91-96). -/
def lrSearchKeys : List String :=
  ["lr_min", "lr_max", "num_steps", "num_epochs"]

/-- External collaborators of `run_experiment`, abstracted: the data server's
two restartable streams of (inputs, raw labels) batches, the model with its
step function (state threaded explicitly: the step returns the new parameter
tree), the wall clock, and the loss/accuracy evaluator `comp_loss_accuracy`.
`α` is the scalar type, `P` the parameter-tree type, `X` the input-tensor
type. -/
structure Env (α P X : Type) where
  step : P → X × List (List α) → α → P
  initParams : P
  trainBatches : List (X × List Nat)
  testBatches : List (X × List Nat)
  epochTime : Nat → α
  evalLossAcc : P → List (X × List Nat) → α × α
deriving Inhabited

/-- Values `run_experiment` reads once before the epoch loop
(main.py lines 40-43): the step size, the number of targets and the stats
cadence, together with the environment. -/
structure Ctx (α P X : Type) where
  env : Env α P X
  lr : α
  numTargets : Nat
  cadence : Nat

/-- One iteration of the inner batch loop (main.py lines 59-61): labels are
one-hot encoded and the model performs one optimizer step, returning the new
parameter tree. -/
def batchStep {α P X : Type} [Zero α] [One α] (c : Ctx α P X) (p : P)
    (b : X × List Nat) : P :=
  c.env.step p (b.1, one_hot b.2 c.numTargets) c.lr

/-- One full pass of the batch loop over the training stream: the parameter
tree after the epoch. -/
def runEpochBody {α P X : Type} [Zero α] [One α] (c : Ctx α P X) (p : P) : P :=
  c.env.trainBatches.foldl (batchStep c) p

/-- The parameter tree after `n` complete epochs. -/
def paramsAfter {α P X : Type} [Zero α] [One α] (c : Ctx α P X) (p : P) (n : Nat) : P :=
  (runEpochBody c)^[n] p

/-- The parameter tree the loop holds after the first `k` batches of an
epoch. -/
def paramsHeld {α P X : Type} [Zero α] [One α] (c : Ctx α P X) (p : P) (k : Nat) : P :=
  (c.env.trainBatches.take k).foldl (batchStep c) p

/-- The statistics block of main.py lines 66-79, entered when the 1-based
epoch index falls on the cadence: loss and accuracy are evaluated on the
training and the held-out stream, the four scalars go to the metrics sink
(lines 71-74), and one record goes to the run log (lines 76-77). -/
def statBlock {α P X : Type} (c : Ctx α P X) (e : Nat) (p : P) : List (Event α) :=
  let tr := c.env.evalLossAcc p c.env.trainBatches
  let te := c.env.evalLossAcc p c.env.testBatches
  [Event.scalar "Accuracy/train" tr.2 e,
   Event.scalar "Accuracy/test" te.2 e,
   Event.scalar "Loss/train" tr.1 e,
   Event.scalar "Loss/test" te.1 e,
   Event.logRecord e (c.env.epochTime e) tr.1 te.1 tr.2 te.2]

/-- The optimizer-step events of epoch `e`: one per training batch, in
stream order (main.py lines 59-61). -/
def batchEvents {α P X : Type} [Zero α] [One α] (c : Ctx α P X) (e : Nat) :
    List (Event α) :=
  c.env.trainBatches.enum.map fun ib =>
    Event.optStep e ib.1 (one_hot ib.2.2 c.numTargets) c.lr

/-- All events of epoch `e` (main.py lines 55-79), given that `p` was the
parameter tree at the start of the epoch loop: the batch steps, then the
`Epoch_time` scalar (line 64), then the statistics block when the 1-based
epoch index is a multiple of the cadence (line 66). -/
def epochTrace {α P X : Type} [Zero α] [One α] (c : Ctx α P X) (p : P) (e : Nat) :
    List (Event α) :=
  batchEvents c e
    ++ Event.scalar "Epoch_time" (c.env.epochTime e) e
      :: (if (e + 1) % c.cadence = 0 then statBlock c e (paramsAfter c p (e + 1)) else [])

/-- The events of the whole epoch loop, epochs `0, …, n-1` in order. -/
def trainTrace {α P X : Type} [Zero α] [One α] (c : Ctx α P X) (p : P) (n : Nat) :
    List (Event α) :=
  (List.range n).flatMap (epochTrace c p)

/-- The step size the run trains with (main.py lines 34-40): the search
result when the configured step size is null, the configured value
otherwise. -/
def usedStepSize {α : Type} (search : Hparams α → α) (hp : Hparams α) : α :=
  match hp.step_size with
  | none => search hp
  | some s => s

/-- The hyperparameter dict after main.py lines 34-37: when the configured
step size is null the search result is written back into `step_size`;
every other field is untouched. -/
def updatedHparams {α : Type} (search : Hparams α → α) (hp : Hparams α) : Hparams α :=
  match hp.step_size with
  | none => { hp with step_size := some (search hp) }
  | some _ => hp

/-- The learning-rate-search events of one run: exactly one when the
configured step size is null, none otherwise (main.py lines 34-37). -/
def searchEvents {α : Type} (search : Hparams α → α) (hp : Hparams α) :
    List (Event α) :=
  match hp.step_size with
  | none => [Event.lrSearch (search hp)]
  | some _ => []

/-- The device-configuration events of one run (main.py lines 31-32): the
jax platform is forced to cpu exactly when the configured device is
`"cpu"`; any other value leaves the backend untouched. -/
def deviceEvents {α : Type} (hp : Hparams α) : List (Event α) :=
  if hp.device = "cpu" then [Event.setPlatform "cpu"] else []

/-- The loop context read from the (possibly search-updated) hyperparameter
dict, main.py lines 40-43. -/
def mkCtx {α P X : Type} [Zero α] (search : Hparams α → α) (env : Env α P X)
    (hp : Hparams α) : Ctx α P X :=
  { env := env,
    lr := (updatedHparams search hp).step_size.getD 0,
    numTargets := (updatedHparams search hp).num_targets,
    cadence := (updatedHparams search hp).stats_every_num_epochs }

/-- Shallow embedding of `run_experiment` (main.py lines 23-82): the event
trace of the call, the hyperparameter dict as the caller sees it afterwards
(the dict is mutated in place in Python; here it is returned), and the
final parameter tree.  `search` abstracts `learning_rate_search`. -/
def runExperiment {α P X : Type} [Zero α] [One α] (search : Hparams α → α)
    (env : Env α P X) (hp : Hparams α) : List (Event α) × Hparams α × P :=
  (Event.phaseInit
      :: deviceEvents hp
      ++ searchEvents search hp
      ++ trainTrace (mkCtx search env hp) env.initParams
          (updatedHparams search hp).num_epochs
      ++ [Event.phaseDone],
   updatedHparams search hp,
   paramsAfter (mkCtx search env hp) env.initParams
     (updatedHparams search hp).num_epochs)

/-- The hyperparameter dict literal of main.py lines 87-107. -/
def hparams0 : Hparams ℚ :=
  { dataset := "cifar10",
    layer_sizes := [3 * 32 ^ 2, 512, 512, 10],
    lr_search := { lr_min := none, lr_max := none, num_steps := 40, num_epochs := 2 },
    step_size := none,
    num_epochs := 100,
    batch_size := 256,
    num_targets := 10,
    num_workers := 4,
    stats_every_num_epochs := 10,
    optimizer := none,
    device := "tpu" }

/-- The per-experiment updates of main.py lines 110-111 and 116-117: the
optimizer name is set and the search bracket is set to `[0.5, 2.0]`. -/
def withBracketAndOpt (hp : Hparams ℚ) (o : String) : Hparams ℚ :=
  { hp with
    optimizer := some o,
    lr_search := { hp.lr_search with lr_min := some (1 / 2), lr_max := some 2 } }

/-- The hyperparameter dict the first (SGD) experiment receives
(main.py lines 109-113). -/
def sgdHparams : Hparams ℚ :=
  withBracketAndOpt hparams0 "sgd"

/-- The hyperparameter dict the second (SNG) experiment receives
(main.py lines 115-119): the same dict object, as the first experiment left
it, with the optimizer and the bracket set again. -/
def sngHparams {P X : Type} (search : Hparams ℚ → ℚ) (envSgd : Env ℚ P X) :
    Hparams ℚ :=
  withBracketAndOpt (runExperiment search envSgd sgdHparams).2.1 "sng"

/-- Whether an event is a run-log record. -/
def isLogRecord {α : Type} : Event α → Bool
  | Event.logRecord .. => true
  | _ => false

/-- The run-log records of a trace, in order. -/
def records {α : Type} (evs : List (Event α)) : List (Event α) :=
  evs.filter isLogRecord

/-- The run-log record written at the end of epoch `e` (main.py lines 68-77):
the evaluations use the parameter tree after `e + 1` complete epochs. -/
def recordAt {α P X : Type} [Zero α] [One α] (c : Ctx α P X) (p : P) (e : Nat) :
    Event α :=
  let q := paramsAfter c p (e + 1)
  let tr := c.env.evalLossAcc q c.env.trainBatches
  let te := c.env.evalLossAcc q c.env.testBatches
  Event.logRecord e (c.env.epochTime e) tr.1 te.1 tr.2 te.2

/-- Whether an event is an optimizer step. -/
def isOptStep {α : Type} : Event α → Bool
  | Event.optStep .. => true
  | _ => false

/-- The optimizer-step events of a trace, in order. -/
def optSteps {α : Type} (evs : List (Event α)) : List (Event α) :=
  evs.filter isOptStep

/-- Events produced inside the epoch loop: optimizer steps, scalars and
run-log records, and nothing else. -/
def isEpochEvent {α : Type} : Event α → Prop
  | Event.optStep .. => True
  | Event.scalar .. => True
  | Event.logRecord .. => True
  | _ => False

/-- Modelled from the spec: the SNG optimizer (`sngrad.model`) is not under
`src/`.  Elementwise clipping of a ratio to the magnitude bound
`[-rmax, rmax]` (spec section 4.2). -/
def clip (rmax x : ℚ) : ℚ :=
  max (-rmax) (min x rmax)

/-- Modelled from the spec: the SNG signal-to-noise ratio of one element,
`r = mean / (std + ε)` clipped to `[-rmax, rmax]` (spec section 4.2). -/
def snRatio (eps rmax mean std : ℚ) : ℚ :=
  clip rmax (mean / (std + eps))

/-- Modelled from the spec: the SNG update of one parameter tensor,
elementwise `param - step_size * r` (spec section 4.2). `ms` and `ss` are
the elementwise mean and standard deviation of the gradient samples. -/
def sngTensorStep (eps rmax stepSize : ℚ) (ps ms ss : List ℚ) : List ℚ :=
  List.zipWith (fun p q => p - stepSize * snRatio eps rmax q.1 q.2) ps (ms.zip ss)

/-- Modelled from the spec: the SNG update of a whole parameter tree, one
tensor at a time (spec section 4.2). -/
def sngTreeStep (eps rmax stepSize : ℚ) (ps ms ss : List (List ℚ)) :
    List (List ℚ) :=
  List.zipWith (fun p q => sngTensorStep eps rmax stepSize p q.1 q.2) ps (ms.zip ss)

/-- Modelled from the spec: `learning_rate_search` (`sngrad.lr_search`) is
not under `src/`.  The `num_candidates` step sizes, log-uniformly spaced
across `[lrMin, lrMax]` (spec section 4.5): candidate `i` is
`lrMin * (lrMax / lrMin) ^ (i / (n - 1))`.  For `n = 1` the lone candidate
is `lrMin` (the exponent is `0` by the division-by-zero convention). -/
noncomputable def logspace (lrMin lrMax : ℝ) (n : Nat) : List ℝ :=
  (List.range n).map fun i : Nat => lrMin * (lrMax / lrMin) ^ ((i : ℝ) / ((n : ℝ) - 1))

/-- Modelled from the spec: the candidate with the strictly lowest trial
loss wins; on a tie the earlier candidate is kept, which for the increasing
candidate list is the smaller step size (spec section 4.5). -/
noncomputable def selectLr (loss : ℝ → ℝ) : List ℝ → ℝ
  | [] => 0
  | c :: cs => cs.foldl (fun best x => if loss x < loss best then x else best) c

/-- Modelled from the spec: the learning-rate search over the configured
bracket (spec section 4.5).  `loss` abstracts one whole trial: training a
fresh parameter tree for the trial epochs at the candidate step size and
evaluating the validation loss. -/
noncomputable def learning_rate_search (loss : ℝ → ℝ) (hp : Hparams ℝ) : ℝ :=
  selectLr loss
    (logspace (hp.lr_search.lr_min.getD 0) (hp.lr_search.lr_max.getD 0)
      hp.lr_search.num_steps)

/-- An environment with no batches over ℚ, for concrete witnesses. -/
def cexEnv : Env ℚ Unit Unit :=
  { step := fun p _ _ => p,
    initParams := (),
    trainBatches := [],
    testBatches := [],
    epochTime := fun _ => 0,
    evalLossAcc := fun _ _ => (0, 0) }

/-- Hyperparameters with a configured step size, one epoch and cadence two,
for concrete witnesses and counterexamples. -/
def cexHp : Hparams ℚ :=
  { dataset := "cifar10",
    layer_sizes := [],
    lr_search := { lr_min := none, lr_max := none, num_steps := 0, num_epochs := 0 },
    step_size := some 1,
    num_epochs := 1,
    batch_size := 256,
    num_targets := 10,
    num_workers := 4,
    stats_every_num_epochs := 2,
    optimizer := some "sgd",
    device := "tpu" }

/-- A one-batch context over ℚ with a scalar parameter "tree", for concrete
witnesses. -/
def c1Ctx : Ctx ℚ ℚ Unit :=
  { env :=
      { step := fun p _ lr => p + lr,
        initParams := 0,
        trainBatches := [((), [0])],
        testBatches := [],
        epochTime := fun _ => 0,
        evalLossAcc := fun _ _ => (0, 0) },
    lr := 1,
    numTargets := 2,
    cadence := 1 }

/-- An environment with no batches over ℝ, for concrete witnesses of the
learning-rate-search claims. -/
noncomputable def lrEnvR : Env ℝ Unit Unit :=
  { step := fun p _ _ => p,
    initParams := (),
    trainBatches := [],
    testBatches := [],
    epochTime := fun _ => 0,
    evalLossAcc := fun _ _ => (0, 0) }

/-- Hyperparameters over ℝ with a null step size and the bracket `[1, 2]`
with a single candidate, for concrete witnesses. -/
noncomputable def lrHpR : Hparams ℝ :=
  { dataset := "cifar10",
    layer_sizes := [],
    lr_search := { lr_min := some 1, lr_max := some 2, num_steps := 1, num_epochs := 2 },
    step_size := none,
    num_epochs := 1,
    batch_size := 256,
    num_targets := 10,
    num_workers := 4,
    stats_every_num_epochs := 10,
    optimizer := some "sgd",
    device := "tpu" }

/-! ## Helper lemmas about the embedded run -/

theorem updatedHparams_step_size {α : Type} (search : Hparams α → α) (hp : Hparams α) :
    (updatedHparams search hp).step_size = some (usedStepSize search hp) := by
  unfold updatedHparams usedStepSize
  cases h : hp.step_size <;> simp [h]

theorem updatedHparams_num_epochs {α : Type} (search : Hparams α → α) (hp : Hparams α) :
    (updatedHparams search hp).num_epochs = hp.num_epochs := by
  unfold updatedHparams
  cases h : hp.step_size <;> simp [h]

theorem updatedHparams_num_targets {α : Type} (search : Hparams α → α) (hp : Hparams α) :
    (updatedHparams search hp).num_targets = hp.num_targets := by
  unfold updatedHparams
  cases h : hp.step_size <;> simp [h]

theorem updatedHparams_cadence {α : Type} (search : Hparams α → α) (hp : Hparams α) :
    (updatedHparams search hp).stats_every_num_epochs = hp.stats_every_num_epochs := by
  unfold updatedHparams
  cases h : hp.step_size <;> simp [h]

theorem mkCtx_env {α P X : Type} [Zero α] (search : Hparams α → α) (env : Env α P X)
    (hp : Hparams α) : (mkCtx search env hp).env = env := rfl

theorem mkCtx_lr {α P X : Type} [Zero α] (search : Hparams α → α) (env : Env α P X)
    (hp : Hparams α) : (mkCtx search env hp).lr = usedStepSize search hp := by
  unfold mkCtx
  rw [updatedHparams_step_size]
  rfl

theorem mkCtx_numTargets {α P X : Type} [Zero α] (search : Hparams α → α)
    (env : Env α P X) (hp : Hparams α) :
    (mkCtx search env hp).numTargets = hp.num_targets := by
  unfold mkCtx
  rw [updatedHparams_num_targets]

theorem mkCtx_cadence {α P X : Type} [Zero α] (search : Hparams α → α)
    (env : Env α P X) (hp : Hparams α) :
    (mkCtx search env hp).cadence = hp.stats_every_num_epochs := by
  unfold mkCtx
  rw [updatedHparams_cadence]

theorem runExperiment_trace {α P X : Type} [Zero α] [One α] (search : Hparams α → α)
    (env : Env α P X) (hp : Hparams α) :
    (runExperiment search env hp).1 =
      Event.phaseInit
        :: deviceEvents hp
        ++ searchEvents search hp
        ++ trainTrace (mkCtx search env hp) env.initParams
            (updatedHparams search hp).num_epochs
        ++ [Event.phaseDone] := rfl

theorem runExperiment_hparams {α P X : Type} [Zero α] [One α] (search : Hparams α → α)
    (env : Env α P X) (hp : Hparams α) :
    (runExperiment search env hp).2.1 = updatedHparams search hp := rfl

theorem mem_statBlock {α P X : Type} {c : Ctx α P X} {e : Nat} {p : P} {ev : Event α} :
    ev ∈ statBlock c e p ↔
      ev = Event.scalar "Accuracy/train" (c.env.evalLossAcc p c.env.trainBatches).2 e ∨
      ev = Event.scalar "Accuracy/test" (c.env.evalLossAcc p c.env.testBatches).2 e ∨
      ev = Event.scalar "Loss/train" (c.env.evalLossAcc p c.env.trainBatches).1 e ∨
      ev = Event.scalar "Loss/test" (c.env.evalLossAcc p c.env.testBatches).1 e ∨
      ev = Event.logRecord e (c.env.epochTime e)
            (c.env.evalLossAcc p c.env.trainBatches).1
            (c.env.evalLossAcc p c.env.testBatches).1
            (c.env.evalLossAcc p c.env.trainBatches).2
            (c.env.evalLossAcc p c.env.testBatches).2 := by
  simp [statBlock]

theorem mem_batchEvents {α P X : Type} [Zero α] [One α] {c : Ctx α P X} {e : Nat}
    {ev : Event α} :
    ev ∈ batchEvents c e ↔
      ∃ ib ∈ c.env.trainBatches.enum,
        ev = Event.optStep e ib.1 (one_hot ib.2.2 c.numTargets) c.lr := by
  simp [batchEvents, List.mem_map, eq_comm]

theorem mem_epochTrace {α P X : Type} [Zero α] [One α] {c : Ctx α P X} {p : P}
    {e : Nat} {ev : Event α} :
    ev ∈ epochTrace c p e ↔
      ev ∈ batchEvents c e ∨
      ev = Event.scalar "Epoch_time" (c.env.epochTime e) e ∨
      ((e + 1) % c.cadence = 0 ∧ ev ∈ statBlock c e (paramsAfter c p (e + 1))) := by
  unfold epochTrace
  by_cases h : (e + 1) % c.cadence = 0 <;> simp [h]

theorem mem_trainTrace {α P X : Type} [Zero α] [One α] {c : Ctx α P X} {p : P}
    {n : Nat} {ev : Event α} :
    ev ∈ trainTrace c p n ↔ ∃ e, e < n ∧ ev ∈ epochTrace c p e := by
  simp [trainTrace, List.mem_flatMap, List.mem_range]

theorem filter_flatMap {β γ : Type} (l : List β) (f : β → List γ) (q : γ → Bool) :
    (l.flatMap f).filter q = l.flatMap fun b => (f b).filter q := by
  induction l with
  | nil => rfl
  | cons a l ih => simp [List.flatMap_cons, List.filter_append, ih]

theorem flatMap_ite_singleton {β γ : Type} (l : List β) (q : β → Prop)
    [DecidablePred q] (g : β → γ) :
    (l.flatMap fun b => if q b then [g b] else []) =
      l.filterMap fun b => if q b then some (g b) else none := by
  induction l with
  | nil => rfl
  | cons a l ih => by_cases h : q a <;> simp [List.flatMap_cons, h, ih]

theorem records_batchEvents {α P X : Type} [Zero α] [One α] (c : Ctx α P X) (e : Nat) :
    records (batchEvents c e) = [] := by
  rw [records, List.filter_eq_nil_iff]
  intro a ha
  rw [mem_batchEvents] at ha
  obtain ⟨ib, _, rfl⟩ := ha
  simp [isLogRecord]

theorem records_epochTrace {α P X : Type} [Zero α] [One α] (c : Ctx α P X) (p : P)
    (e : Nat) :
    records (epochTrace c p e) =
      if (e + 1) % c.cadence = 0 then [recordAt c p e] else [] := by
  have hb := records_batchEvents c e
  rw [records] at hb ⊢
  unfold epochTrace
  rw [List.filter_append, hb]
  by_cases h : (e + 1) % c.cadence = 0 <;>
    simp [h, statBlock, recordAt, isLogRecord, List.filter_cons]

theorem records_trainTrace {α P X : Type} [Zero α] [One α] (c : Ctx α P X) (p : P)
    (n : Nat) :
    records (trainTrace c p n) =
      (List.range n).filterMap fun e =>
        if (e + 1) % c.cadence = 0 then some (recordAt c p e) else none := by
  rw [records, trainTrace, filter_flatMap]
  have h : ∀ e ∈ List.range n, List.filter isLogRecord (epochTrace c p e) =
      if (e + 1) % c.cadence = 0 then [recordAt c p e] else [] := by
    intro e _
    have h2 := records_epochTrace c p e
    rwa [records] at h2
  rw [List.flatMap_congr h]
  exact flatMap_ite_singleton (List.range n) (fun e => (e + 1) % c.cadence = 0)
    (recordAt c p)

theorem records_deviceEvents {α : Type} (hp : Hparams α) :
    records (deviceEvents hp) = [] := by
  unfold records deviceEvents
  by_cases h : hp.device = "cpu" <;> simp [h, isLogRecord]

theorem records_searchEvents {α : Type} (search : Hparams α → α) (hp : Hparams α) :
    records (searchEvents search hp) = [] := by
  unfold records searchEvents
  cases h : hp.step_size <;> simp [h, isLogRecord]

theorem records_runExperiment {α P X : Type} [Zero α] [One α] (search : Hparams α → α)
    (env : Env α P X) (hp : Hparams α) :
    records (runExperiment search env hp).1 =
      (List.range (updatedHparams search hp).num_epochs).filterMap fun e =>
        if (e + 1) % hp.stats_every_num_epochs = 0
        then some (recordAt (mkCtx search env hp) env.initParams e) else none := by
  have h1 := records_deviceEvents hp
  have h2 := records_searchEvents search hp
  have ht := records_trainTrace (mkCtx search env hp) env.initParams
    (updatedHparams search hp).num_epochs
  simp only [mkCtx_cadence] at ht
  rw [runExperiment_trace]
  rw [records] at h1 h2 ht ⊢
  simp only [List.filter_cons, List.filter_append, h1, h2, ht, isLogRecord]
  simp

theorem optSteps_batchEvents {α P X : Type} [Zero α] [One α] (c : Ctx α P X) (e : Nat) :
    optSteps (batchEvents c e) = batchEvents c e := by
  rw [optSteps, List.filter_eq_self]
  intro a ha
  rw [mem_batchEvents] at ha
  obtain ⟨ib, _, rfl⟩ := ha
  simp [isOptStep]

theorem optSteps_epochTrace {α P X : Type} [Zero α] [One α] (c : Ctx α P X) (p : P)
    (e : Nat) : optSteps (epochTrace c p e) = batchEvents c e := by
  have h1 := optSteps_batchEvents c e
  rw [optSteps] at h1
  unfold optSteps epochTrace
  rw [List.filter_append, h1]
  by_cases h : (e + 1) % c.cadence = 0 <;>
    simp [h, statBlock, isOptStep, List.filter_cons]

theorem optSteps_trainTrace {α P X : Type} [Zero α] [One α] (c : Ctx α P X) (p : P)
    (n : Nat) : optSteps (trainTrace c p n) = (List.range n).flatMap (batchEvents c) := by
  rw [optSteps, trainTrace, filter_flatMap]
  refine List.flatMap_congr fun e _ => ?_
  have h := optSteps_epochTrace c p e
  rwa [optSteps] at h

theorem optSteps_deviceEvents {α : Type} (hp : Hparams α) :
    optSteps (deviceEvents hp) = [] := by
  unfold optSteps deviceEvents
  by_cases h : hp.device = "cpu" <;> simp [h, isOptStep]

theorem optSteps_searchEvents {α : Type} (search : Hparams α → α) (hp : Hparams α) :
    optSteps (searchEvents search hp) = [] := by
  unfold optSteps searchEvents
  cases h : hp.step_size <;> simp [h, isOptStep]

theorem optSteps_runExperiment {α P X : Type} [Zero α] [One α] (search : Hparams α → α)
    (env : Env α P X) (hp : Hparams α) :
    optSteps (runExperiment search env hp).1 =
      (List.range (updatedHparams search hp).num_epochs).flatMap
        (batchEvents (mkCtx search env hp)) := by
  have h1 := optSteps_deviceEvents hp
  have h2 := optSteps_searchEvents search hp
  have ht := optSteps_trainTrace (mkCtx search env hp) env.initParams
    (updatedHparams search hp).num_epochs
  rw [runExperiment_trace]
  rw [optSteps] at h1 h2 ht ⊢
  simp only [List.filter_cons, List.filter_append, h1, h2, ht, isOptStep]
  simp

theorem isEpochEvent_of_mem_trainTrace {α P X : Type} [Zero α] [One α]
    {c : Ctx α P X} {p : P} {n : Nat} {ev : Event α}
    (h : ev ∈ trainTrace c p n) : isEpochEvent ev := by
  rw [mem_trainTrace] at h
  obtain ⟨e, _, h⟩ := h
  rw [mem_epochTrace] at h
  rcases h with h | rfl | ⟨_, h⟩
  · rw [mem_batchEvents] at h
    obtain ⟨ib, _, rfl⟩ := h
    exact trivial
  · exact trivial
  · rw [mem_statBlock] at h
    rcases h with rfl | rfl | rfl | rfl | rfl <;> exact trivial

theorem optStep_lr_of_mem_trainTrace {α P X : Type} [Zero α] [One α]
    {c : Ctx α P X} {p : P} {n e i : Nat} {lbl : List (List α)} {lr : α}
    (h : Event.optStep e i lbl lr ∈ trainTrace c p n) : lr = c.lr := by
  rw [mem_trainTrace] at h
  obtain ⟨e2, _, h⟩ := h
  rw [mem_epochTrace] at h
  rcases h with h | h | ⟨_, h⟩
  · rw [mem_batchEvents] at h
    obtain ⟨ib, _, h⟩ := h
    injection h with h1 h2 h3 h4
  · exact absurd h (by simp)
  · rw [mem_statBlock] at h
    rcases h with h | h | h | h | h <;> exact absurd h (by simp)

theorem scalar_mem_trainTrace {α P X : Type} [Zero α] [One α]
    {c : Ctx α P X} {p : P} {n e : Nat} {tag : String} {v : α}
    (hne : tag ≠ "Epoch_time") (h : Event.scalar tag v e ∈ trainTrace c p n) :
    (e + 1) % c.cadence = 0 ∧ e < n := by
  rw [mem_trainTrace] at h
  obtain ⟨e2, he2, h⟩ := h
  rw [mem_epochTrace] at h
  rcases h with h | h | ⟨hc, h⟩
  · exfalso
    rw [mem_batchEvents] at h
    obtain ⟨ib, _, h⟩ := h
    exact absurd h (by simp)
  · exfalso
    injection h with h1 h2 h3
    exact hne h1
  · rw [mem_statBlock] at h
    rcases h with h | h | h | h | h
    all_goals first
      | (injection h with h1 h2 h3; subst h3; exact ⟨hc, he2⟩)
      | (exact absurd h (by simp))

theorem epoch_time_mem_trainTrace {α P X : Type} [Zero α] [One α]
    (c : Ctx α P X) (p : P) {n e : Nat} (h : e < n) :
    Event.scalar "Epoch_time" (c.env.epochTime e) e ∈ trainTrace c p n := by
  rw [mem_trainTrace]
  refine ⟨e, h, ?_⟩
  rw [mem_epochTrace]
  exact Or.inr (Or.inl rfl)

theorem statBlock_subset_trainTrace {α P X : Type} [Zero α] [One α]
    (c : Ctx α P X) (p : P) {n e : Nat} (he : e < n) (hc : (e + 1) % c.cadence = 0)
    {ev : Event α} (h : ev ∈ statBlock c e (paramsAfter c p (e + 1))) :
    ev ∈ trainTrace c p n := by
  rw [mem_trainTrace]
  refine ⟨e, he, ?_⟩
  rw [mem_epochTrace]
  exact Or.inr (Or.inr ⟨hc, h⟩)

theorem mem_deviceEvents {α : Type} {hp : Hparams α} {ev : Event α} :
    ev ∈ deviceEvents hp ↔ hp.device = "cpu" ∧ ev = Event.setPlatform "cpu" := by
  unfold deviceEvents
  by_cases h : hp.device = "cpu" <;> simp [h]

theorem mem_searchEvents {α : Type} {search : Hparams α → α} {hp : Hparams α}
    {ev : Event α} :
    ev ∈ searchEvents search hp ↔
      hp.step_size = none ∧ ev = Event.lrSearch (search hp) := by
  unfold searchEvents
  cases h : hp.step_size <;> simp [h]

theorem mem_runExperiment_iff {α P X : Type} [Zero α] [One α]
    {search : Hparams α → α} {env : Env α P X} {hp : Hparams α} {ev : Event α} :
    ev ∈ (runExperiment search env hp).1 ↔
      ev = Event.phaseInit ∨ ev ∈ deviceEvents hp ∨ ev ∈ searchEvents search hp ∨
      ev ∈ trainTrace (mkCtx search env hp) env.initParams
        (updatedHparams search hp).num_epochs ∨
      ev = Event.phaseDone := by
  rw [runExperiment_trace]
  simp [List.mem_append, List.mem_cons]

theorem sgdHparams_step_size : sgdHparams.step_size = none := rfl

theorem sngHparams_step_size {P X : Type} (search : Hparams ℚ → ℚ)
    (envSgd : Env ℚ P X) :
    (sngHparams search envSgd).step_size = some (search sgdHparams) := by
  unfold sngHparams withBracketAndOpt
  rw [runExperiment_hparams]
  simp only []
  rw [updatedHparams_step_size]
  rfl

theorem selectLr_mem (loss : ℝ → ℝ) (c : ℝ) (cs : List ℝ) :
    selectLr loss (c :: cs) ∈ c :: cs := by
  suffices h : ∀ (cs : List ℝ) (c : ℝ),
      cs.foldl (fun best x => if loss x < loss best then x else best) c ∈ c :: cs by
    exact h cs c
  intro cs
  induction cs with
  | nil =>
      intro c
      simp [List.foldl]
  | cons x xs ih =>
      intro c
      rw [List.foldl_cons]
      rcases List.mem_cons.mp (ih (if loss x < loss c then x else c)) with h | h
      · rw [h]
        by_cases hc : loss x < loss c
        · rw [if_pos hc]
          exact List.mem_cons_of_mem _ (List.mem_cons_self _ _)
        · rw [if_neg hc]
          exact List.mem_cons_self _ _
      · exact List.mem_cons_of_mem _ (List.mem_cons_of_mem _ h)

theorem logspace_bounds {lrMin lrMax : ℝ} (hpos : 0 < lrMin) (hle : lrMin ≤ lrMax)
    (n : Nat) : ∀ x ∈ logspace lrMin lrMax n, lrMin ≤ x ∧ x ≤ lrMax := by
  intro x hx
  simp only [logspace, List.mem_map, List.mem_range] at hx
  obtain ⟨i, hi, rfl⟩ := hx
  have hb : (1 : ℝ) ≤ lrMax / lrMin := (one_le_div hpos).mpr hle
  have hn1 : 1 ≤ n := Nat.one_le_iff_ne_zero.mpr (by omega)
  have ht0 : 0 ≤ (i : ℝ) / ((n : ℝ) - 1) := by
    apply div_nonneg (Nat.cast_nonneg i)
    have hc : (1 : ℝ) ≤ (n : ℝ) := by exact_mod_cast hn1
    linarith
  have ht1 : (i : ℝ) / ((n : ℝ) - 1) ≤ 1 := by
    rcases Nat.lt_or_ge n 2 with h2 | h2
    · have hn' : n = 1 := by omega
      have hi' : i = 0 := by omega
      subst hn' hi'
      norm_num
    · have hd : (0 : ℝ) < (n : ℝ) - 1 := by
        have hc : (2 : ℝ) ≤ (n : ℝ) := by exact_mod_cast h2
        linarith
      rw [div_le_one hd]
      have hc : (i : ℝ) + 1 ≤ (n : ℝ) := by exact_mod_cast hi
      linarith
  have h1 : (1 : ℝ) ≤ (lrMax / lrMin) ^ ((i : ℝ) / ((n : ℝ) - 1)) := by
    calc (1 : ℝ) = (lrMax / lrMin) ^ (0 : ℝ) := (Real.rpow_zero _).symm
    _ ≤ _ := Real.rpow_le_rpow_of_exponent_le hb ht0
  have h2 : (lrMax / lrMin) ^ ((i : ℝ) / ((n : ℝ) - 1)) ≤ lrMax / lrMin := by
    calc (lrMax / lrMin) ^ ((i : ℝ) / ((n : ℝ) - 1))
        ≤ (lrMax / lrMin) ^ (1 : ℝ) := Real.rpow_le_rpow_of_exponent_le hb ht1
    _ = lrMax / lrMin := Real.rpow_one _
  constructor
  · calc lrMin = lrMin * 1 := (mul_one _).symm
    _ ≤ lrMin * (lrMax / lrMin) ^ ((i : ℝ) / ((n : ℝ) - 1)) :=
        mul_le_mul_of_nonneg_left h1 hpos.le
  · calc lrMin * (lrMax / lrMin) ^ ((i : ℝ) / ((n : ℝ) - 1))
        ≤ lrMin * (lrMax / lrMin) := mul_le_mul_of_nonneg_left h2 hpos.le
    _ = lrMax := by rw [mul_comm, div_mul_cancel₀ _ (ne_of_gt hpos)]

theorem learning_rate_search_mem (loss : ℝ → ℝ) {hp : Hparams ℝ} {lrMin lrMax : ℝ}
    (hmin : hp.lr_search.lr_min = some lrMin) (hmax : hp.lr_search.lr_max = some lrMax)
    (hpos : 0 < lrMin) (hle : lrMin ≤ lrMax) (hn : 0 < hp.lr_search.num_steps) :
    lrMin ≤ learning_rate_search loss hp ∧ learning_rate_search loss hp ≤ lrMax := by
  unfold learning_rate_search
  rw [hmin, hmax]
  simp only [Option.getD_some]
  have hne : logspace lrMin lrMax hp.lr_search.num_steps ≠ [] := by
    rw [logspace]
    intro hcon
    rw [List.map_eq_nil_iff, List.range_eq_nil] at hcon
    omega
  obtain ⟨c, cs, hcs⟩ := List.exists_cons_of_ne_nil hne
  rw [hcs]
  have hmem := selectLr_mem loss c cs
  exact logspace_bounds hpos hle hp.lr_search.num_steps _ (hcs ▸ hmem)

/-! ## Claim theorems -/

/-- C2: in every run the phases occur in the order INIT (the `phaseInit`
marker, then the device configuration), then the learning-rate search,
then the epoch loop (whose events are only optimizer steps, scalars and
run-log records), then DONE; the search phase is entered if and only if
the configured step size is null; and when it runs, its result is the
step size carried by every optimizer step of the run. -/
theorem run_phase_order {α P X : Type} [Zero α] [One α] (search : Hparams α → α)
    (env : Env α P X) (hp : Hparams α) :
    (∃ epochEvs, (runExperiment search env hp).1 =
        Event.phaseInit :: deviceEvents hp ++ searchEvents search hp
          ++ epochEvs ++ [Event.phaseDone]
      ∧ ∀ ev ∈ epochEvs, isEpochEvent ev)
    ∧ ((∃ b, Event.lrSearch b ∈ (runExperiment search env hp).1) ↔
        hp.step_size = none)
    ∧ (hp.step_size = none →
        ∀ e i lbl lr, Event.optStep e i lbl lr ∈ (runExperiment search env hp).1 →
          lr = search hp) := by
  refine ⟨⟨trainTrace (mkCtx search env hp) env.initParams
      (updatedHparams search hp).num_epochs,
      runExperiment_trace search env hp,
      fun ev h => isEpochEvent_of_mem_trainTrace h⟩, ?_, ?_⟩
  · constructor
    · rintro ⟨b, hb⟩
      rw [mem_runExperiment_iff] at hb
      rcases hb with h | h | h | h | h
      · exact absurd h (by simp)
      · rw [mem_deviceEvents] at h
        exact absurd h.2 (by simp)
      · rw [mem_searchEvents] at h
        exact h.1
      · exact False.elim (isEpochEvent_of_mem_trainTrace h)
      · exact absurd h (by simp)
    · intro h
      refine ⟨search hp, ?_⟩
      rw [mem_runExperiment_iff]
      exact Or.inr (Or.inr (Or.inl (mem_searchEvents.mpr ⟨h, rfl⟩)))
  · intro hnone e i lbl lr h
    rw [mem_runExperiment_iff] at h
    rcases h with h | h | h | h | h
    · exact absurd h (by simp)
    · rw [mem_deviceEvents] at h
      exact absurd h.2 (by simp)
    · rw [mem_searchEvents] at h
      exact absurd h.2 (by simp)
    · have hl := optStep_lr_of_mem_trainTrace h
      rw [mkCtx_lr] at hl
      rw [hl]
      simp [usedStepSize, hnone]
    · exact absurd h (by simp)

/-- C10: the device selector takes effect only when its value is "cpu":
the backend platform is forced to cpu exactly when the configured device
is "cpu", and for any other configured value (including "tpu" and "gpu")
the run performs no device configuration at all. -/
theorem device_selector_effect {α P X : Type} [Zero α] [One α]
    (search : Hparams α → α) (env : Env α P X) (hp : Hparams α) :
    (Event.setPlatform "cpu" ∈ (runExperiment search env hp).1 ↔ hp.device = "cpu")
    ∧ ∀ s, Event.setPlatform s ∈ (runExperiment search env hp).1 →
        s = "cpu" ∧ hp.device = "cpu" := by
  constructor
  · constructor
    · intro h
      rw [mem_runExperiment_iff] at h
      rcases h with h | h | h | h | h
      · exact absurd h (by simp)
      · exact (mem_deviceEvents.mp h).1
      · rw [mem_searchEvents] at h
        exact absurd h.2 (by simp)
      · exact False.elim (isEpochEvent_of_mem_trainTrace h)
      · exact absurd h (by simp)
    · intro h
      rw [mem_runExperiment_iff]
      exact Or.inr (Or.inl (mem_deviceEvents.mpr ⟨h, rfl⟩))
  · intro s h
    rw [mem_runExperiment_iff] at h
    rcases h with h | h | h | h | h
    · exact absurd h (by simp)
    · rw [mem_deviceEvents] at h
      injection h.2 with h2
      exact ⟨h2, h.1⟩
    · rw [mem_searchEvents] at h
      exact absurd h.2 (by simp)
    · exact False.elim (isEpochEvent_of_mem_trainTrace h)
    · exact absurd h (by simp)

/-- C3: `run_experiment` mutates the caller's hparams dict (embedded here
as the returned dict): after the first (SGD) experiment, `step_size` holds
the learning rate found by that experiment's search, so the second (SNG)
experiment observes a non-null step size, performs no learning-rate search
of its own, and every one of its optimizer steps uses the learning rate
selected for the SGD experiment. -/
theorem hparams_mutation_reused_by_sng {P X P2 X2 : Type} (search : Hparams ℚ → ℚ)
    (envSgd : Env ℚ P X) (envSng : Env ℚ P2 X2) :
    (runExperiment search envSgd sgdHparams).2.1.step_size = some (search sgdHparams)
    ∧ searchEvents search (sngHparams search envSgd) = []
    ∧ (∀ b, Event.lrSearch b ∉
        (runExperiment search envSng (sngHparams search envSgd)).1)
    ∧ ∀ e i lbl lr, Event.optStep e i lbl lr ∈
        (runExperiment search envSng (sngHparams search envSgd)).1 →
        lr = search sgdHparams := by
  have hstep := sngHparams_step_size search envSgd
  refine ⟨?_, ?_, ?_, ?_⟩
  · rw [runExperiment_hparams, updatedHparams_step_size]
    rfl
  · unfold searchEvents
    rw [hstep]
  · intro b hb
    rw [mem_runExperiment_iff] at hb
    rcases hb with h | h | h | h | h
    · exact absurd h (by simp)
    · rw [mem_deviceEvents] at h
      exact absurd h.2 (by simp)
    · rw [mem_searchEvents] at h
      rw [hstep] at h
      exact absurd h.1 (by simp)
    · exact False.elim (isEpochEvent_of_mem_trainTrace h)
    · exact absurd h (by simp)
  · intro e i lbl lr h
    rw [mem_runExperiment_iff] at h
    rcases h with h | h | h | h | h
    · exact absurd h (by simp)
    · rw [mem_deviceEvents] at h
      exact absurd h.2 (by simp)
    · rw [mem_searchEvents] at h
      exact absurd h.2 (by simp)
    · have hl := optStep_lr_of_mem_trainTrace h
      rw [mkCtx_lr] at hl
      rw [hl]
      simp [usedStepSize, hstep]
    · exact absurd h (by simp)

/-- C4: at every epoch whose 1-based index is a multiple of the configured
cadence, and only at those, the epoch loop appends exactly one run-log
record (epoch, epoch_time, train_loss, test_loss, train_accuracy,
test_accuracy) — the run-log records of a run are exactly the cadence
epochs' records, in order, where `recordAt` evaluates loss and accuracy on
both streams against the parameter tree after the epoch's training — and at
every such cadence epoch the whole statistics block (the four evaluation
scalars handed to the metrics sink, plus the record) appears in the run's
trace. -/
theorem cadence_log_records {α P X : Type} [Zero α] [One α] (search : Hparams α → α)
    (env : Env α P X) (hp : Hparams α) :
    records (runExperiment search env hp).1 =
      ((List.range (updatedHparams search hp).num_epochs).filterMap fun e =>
        if (e + 1) % hp.stats_every_num_epochs = 0
        then some (recordAt (mkCtx search env hp) env.initParams e) else none)
    ∧ ∀ e, e < (updatedHparams search hp).num_epochs →
        (e + 1) % hp.stats_every_num_epochs = 0 →
        ∀ ev ∈ statBlock (mkCtx search env hp) e
            (paramsAfter (mkCtx search env hp) env.initParams (e + 1)),
          ev ∈ (runExperiment search env hp).1 := by
  refine ⟨records_runExperiment search env hp, ?_⟩
  intro e he hc ev h
  rw [mem_runExperiment_iff]
  refine Or.inr (Or.inr (Or.inr (Or.inl ?_)))
  exact statBlock_subset_trainTrace _ _ he (by rw [mkCtx_cadence]; exact hc) h

/-- C5 counterexample: with cadence 2 and a single epoch, the run hands the
`Epoch_time` scalar for epoch 0 to the metrics sink (main.py line 64 sits
outside the cadence guard) although the 1-based epoch index 1 is not a
multiple of the cadence — so the claim that all three kinds of scalars
reach the sink only at cadence epochs is false. -/
theorem epoch_time_scalar_off_cadence :
    Event.scalar "Epoch_time" (0 : ℚ) 0 ∈
      (runExperiment (fun _ => 0) cexEnv cexHp).1
    ∧ (0 + 1) % cexHp.stats_every_num_epochs ≠ 0 := by
  constructor
  · rw [mem_runExperiment_iff]
    refine Or.inr (Or.inr (Or.inr (Or.inl ?_)))
    exact epoch_time_mem_trainTrace (mkCtx (fun _ => 0) cexEnv cexHp)
      cexEnv.initParams Nat.one_pos
  · decide

/-- C5 (amended): loss and accuracy scalars — indeed every scalar other
than `Epoch_time` — are handed to the metrics sink only at epochs on the
configured cadence; the `Epoch_time` scalar, by contrast, is handed to the
sink at every epoch, cadence or not. -/
theorem scalar_sink_cadence {α P X : Type} [Zero α] [One α] (search : Hparams α → α)
    (env : Env α P X) (hp : Hparams α) :
    (∀ tag v e, tag ≠ "Epoch_time" →
        Event.scalar tag v e ∈ (runExperiment search env hp).1 →
        (e + 1) % hp.stats_every_num_epochs = 0
          ∧ e < (updatedHparams search hp).num_epochs)
    ∧ ∀ e, e < (updatedHparams search hp).num_epochs →
        Event.scalar "Epoch_time" (env.epochTime e) e ∈
          (runExperiment search env hp).1 := by
  constructor
  · intro tag v e hne h
    rw [mem_runExperiment_iff] at h
    rcases h with h | h | h | h | h
    · exact absurd h (by simp)
    · rw [mem_deviceEvents] at h
      exact absurd h.2 (by simp)
    · rw [mem_searchEvents] at h
      exact absurd h.2 (by simp)
    · have hs := scalar_mem_trainTrace hne h
      rwa [mkCtx_cadence] at hs
    · exact absurd h (by simp)
  · intro e he
    rw [mem_runExperiment_iff]
    refine Or.inr (Or.inr (Or.inr (Or.inl ?_)))
    exact epoch_time_mem_trainTrace (mkCtx search env hp) env.initParams he

/-- C8: the optimizer-step events of a run are exactly one per
(epoch, batch) pair, in epoch and stream order, each carrying the batch's
labels one-hot encoded with `num_targets` classes and the run's step size;
and the one-hot encoding has one row per label, each row of length
`num_targets`. -/
theorem one_step_per_batch_one_hot {α P X : Type} [Zero α] [One α]
    (search : Hparams α → α) (env : Env α P X) (hp : Hparams α) :
    optSteps (runExperiment search env hp).1 =
      ((List.range (updatedHparams search hp).num_epochs).flatMap fun e =>
        env.trainBatches.enum.map fun ib =>
          Event.optStep e ib.1 (one_hot ib.2.2 hp.num_targets)
            (usedStepSize search hp))
    ∧ (∀ ys k, List.length (one_hot ys k : List (List α)) = ys.length)
    ∧ ∀ ys k, ∀ row ∈ (one_hot ys k : List (List α)), List.length row = k := by
  refine ⟨?_, ?_, ?_⟩
  · rw [optSteps_runExperiment]
    refine List.flatMap_congr fun e _ => ?_
    unfold batchEvents
    simp only [mkCtx_env, mkCtx_numTargets, mkCtx_lr]
  · intro ys k
    simp [one_hot]
  · intro ys k row h
    rw [one_hot, List.mem_map] at h
    obtain ⟨c2, _, rfl⟩ := h
    simp

/-- C1: the optimizer step is a pure function from the held parameter tree,
the batch and the step size to a new tree: within an epoch, the tree the
loop holds after batch `i + 1` is exactly the value the step function
returned on the tree held after batch `i` and the one-hot-encoded batch
`i`; a full epoch is the left fold of that step; and a run's final tree
is the `num_epochs`-fold iterate of the epoch body from the initial tree.
The previous tree is simply no longer referenced — nothing is mutated in
place. -/
theorem optimizer_step_pure {α P X : Type} [Zero α] [One α] (c : Ctx α P X)
    (p : P) (i : Nat) (h : i < c.env.trainBatches.length) :
    paramsHeld c p (i + 1) =
      c.env.step (paramsHeld c p i)
        ((c.env.trainBatches.get ⟨i, h⟩).1,
          one_hot (c.env.trainBatches.get ⟨i, h⟩).2 c.numTargets) c.lr
    ∧ runEpochBody c p = paramsHeld c p c.env.trainBatches.length
    ∧ ∀ (search : Hparams α → α) (env : Env α P X) (hp : Hparams α),
        (runExperiment search env hp).2.2 =
          (runEpochBody (mkCtx search env hp))^[(updatedHparams search hp).num_epochs]
            env.initParams := by
  refine ⟨?_, ?_, fun search env hp => rfl⟩
  · unfold paramsHeld
    rw [List.take_succ, List.foldl_append, List.getElem?_eq_getElem h]
    rfl
  · unfold runEpochBody paramsHeld
    rw [List.take_length]

/-- Witness for C1 at a concrete one-batch context. -/
theorem optimizer_step_pure_witness :
    paramsHeld c1Ctx 0 (0 + 1) =
      c1Ctx.env.step (paramsHeld c1Ctx 0 0)
        ((c1Ctx.env.trainBatches.get ⟨0, by decide⟩).1,
          one_hot (c1Ctx.env.trainBatches.get ⟨0, by decide⟩).2 c1Ctx.numTargets)
        c1Ctx.lr
    ∧ runEpochBody c1Ctx 0 = paramsHeld c1Ctx 0 c1Ctx.env.trainBatches.length
    ∧ ∀ (search : Hparams ℚ → ℚ) (env : Env ℚ ℚ Unit) (hp : Hparams ℚ),
        (runExperiment search env hp).2.2 =
          (runEpochBody (mkCtx search env hp))^[(updatedHparams search hp).num_epochs]
            env.initParams :=
  optimizer_step_pure c1Ctx 0 0 (by decide)

/-- C6 counterexample: the configuration the program consumes is exactly
the key set of the hparams dict literal (plus the nested `lr_search` keys),
and no key provides an SNG shard count, a clip bound `r_max`, or a
stabilizing constant ε — so the claim that the configuration contains
fields for all of those is false. -/
theorem config_missing_sng_fields :
    hparamsKeys = ["dataset", "layer_sizes", "lr_search", "step_size", "num_epochs",
      "batch_size", "num_targets", "num_workers", "stats_every_num_epochs",
      "optimizer", "device"]
    ∧ lrSearchKeys = ["lr_min", "lr_max", "num_steps", "num_epochs"]
    ∧ "num_shards" ∉ hparamsKeys ++ lrSearchKeys
    ∧ "r_max" ∉ hparamsKeys ++ lrSearchKeys
    ∧ "eps" ∉ hparamsKeys ++ lrSearchKeys
    ∧ "epsilon" ∉ hparamsKeys ++ lrSearchKeys := by
  refine ⟨rfl, rfl, ?_, ?_, ?_, ?_⟩ <;> decide

/-- C6 (amended): the configuration contains fields for the nullable step
size (null in the literal), the number of epochs, the batch size, the
LR-search bracket `[lr_min, lr_max]`, the number of LR candidates
(`num_steps`), the LR-search trial-epoch count (`lr_search.num_epochs`),
and the device selector — but no fields for the SNG shard count, the clip
bound `r_max`, or the stabilizing constant ε. -/
theorem config_fields :
    "step_size" ∈ hparamsKeys ∧ hparams0.step_size = none
    ∧ "num_epochs" ∈ hparamsKeys ∧ "batch_size" ∈ hparamsKeys
    ∧ "lr_min" ∈ lrSearchKeys ∧ "lr_max" ∈ lrSearchKeys
    ∧ "num_steps" ∈ lrSearchKeys ∧ "num_epochs" ∈ lrSearchKeys
    ∧ "device" ∈ hparamsKeys
    ∧ "num_shards" ∉ hparamsKeys ++ lrSearchKeys
    ∧ "r_max" ∉ hparamsKeys ++ lrSearchKeys
    ∧ "eps" ∉ hparamsKeys ++ lrSearchKeys := by
  refine ⟨?_, rfl, ?_, ?_, ?_, ?_, ?_, ?_, ?_, ?_, ?_, ?_⟩ <;> decide

/-- C7: for every call of the learning-rate search with a valid bracket
the returned step size lies within `[lr_min, lr_max]` inclusive, and
consequently in a run whose step size is determined by the search
(configured null), every optimizer step of the training phase uses a step
size within the originally configured bracket. -/
theorem search_result_in_bracket {P X : Type} (loss : ℝ → ℝ) (env : Env ℝ P X)
    (hp : Hparams ℝ) (lrMin lrMax : ℝ)
    (hmin : hp.lr_search.lr_min = some lrMin) (hmax : hp.lr_search.lr_max = some lrMax)
    (hpos : 0 < lrMin) (hlt : lrMin < lrMax) (hn : 0 < hp.lr_search.num_steps)
    (hnone : hp.step_size = none) :
    (lrMin ≤ learning_rate_search loss hp ∧ learning_rate_search loss hp ≤ lrMax)
    ∧ ∀ e i lbl lr, Event.optStep e i lbl lr ∈
        (runExperiment (learning_rate_search loss) env hp).1 →
        lrMin ≤ lr ∧ lr ≤ lrMax := by
  have hb := learning_rate_search_mem loss hmin hmax hpos hlt.le hn
  refine ⟨hb, ?_⟩
  intro e i lbl lr h
  rw [mem_runExperiment_iff] at h
  rcases h with h | h | h | h | h
  · exact absurd h (by simp)
  · rw [mem_deviceEvents] at h
    exact absurd h.2 (by simp)
  · rw [mem_searchEvents] at h
    exact absurd h.2 (by simp)
  · have hl := optStep_lr_of_mem_trainTrace h
    rw [mkCtx_lr] at hl
    have hu : usedStepSize (learning_rate_search loss) hp = learning_rate_search loss hp := by
      simp [usedStepSize, hnone]
    rw [hl, hu]
    exact hb
  · exact absurd h (by simp)

/-- Witness for C7 at the concrete bracket `[1, 2]` with one candidate. -/
theorem search_result_in_bracket_witness :
    ((1 : ℝ) ≤ learning_rate_search (fun _ => 0) lrHpR
      ∧ learning_rate_search (fun _ => 0) lrHpR ≤ 2)
    ∧ ∀ e i lbl lr, Event.optStep e i lbl lr ∈
        (runExperiment (learning_rate_search (fun _ => 0)) lrEnvR lrHpR).1 →
        (1 : ℝ) ≤ lr ∧ lr ≤ 2 :=
  search_result_in_bracket (fun _ => 0) lrEnvR lrHpR 1 2 rfl rfl one_pos one_lt_two
    Nat.one_pos rfl

/-- C9: in the SNG optimizer step the clipped signal-to-noise ratio
`r = clip(mean / (std + ε))` of every element lies within
`[-r_max, r_max]`, and the update applied to every element of every
parameter tensor of the tree is `param - step_size * r`. -/
theorem sng_clip_and_update (eps rmax stepSize : ℚ) (hr : 0 ≤ rmax) :
    (∀ mean std, -rmax ≤ snRatio eps rmax mean std
      ∧ snRatio eps rmax mean std ≤ rmax)
    ∧ (∀ ps ms ss : List ℚ, ∀ i, ∀ g1 : i < ps.length, ∀ g2 : i < ms.length,
        ∀ g3 : i < ss.length,
        (sngTensorStep eps rmax stepSize ps ms ss)[i]? =
          some (ps[i] - stepSize * snRatio eps rmax ms[i] ss[i]))
    ∧ ∀ ps ms ss : List (List ℚ), ∀ k, ∀ g1 : k < ps.length, ∀ g2 : k < ms.length,
        ∀ g3 : k < ss.length,
        (sngTreeStep eps rmax stepSize ps ms ss)[k]? =
          some (sngTensorStep eps rmax stepSize ps[k] ms[k] ss[k]) := by
  refine ⟨fun mean std => ?_, fun ps ms ss i h1 h2 h3 => ?_,
    fun ps ms ss k h1 h2 h3 => ?_⟩
  · unfold snRatio clip
    refine ⟨le_max_left _ _, max_le (by linarith) (min_le_right _ _)⟩
  · have hz : i < (ms.zip ss).length := by
      rw [List.length_zip]
      omega
    have hl : i < (sngTensorStep eps rmax stepSize ps ms ss).length := by
      rw [sngTensorStep, List.length_zipWith, List.length_zip]
      omega
    rw [List.getElem?_eq_getElem hl]
    unfold sngTensorStep
    simp only [List.getElem_zipWith, List.getElem_zip]
  · have hz : k < (ms.zip ss).length := by
      rw [List.length_zip]
      omega
    have hl : k < (sngTreeStep eps rmax stepSize ps ms ss).length := by
      rw [sngTreeStep, List.length_zipWith, List.length_zip]
      omega
    rw [List.getElem?_eq_getElem hl]
    unfold sngTreeStep
    simp only [List.getElem_zipWith, List.getElem_zip]

/-- Witness for C9 at ε = 1, r_max = 1 and step size 1. -/
theorem sng_clip_and_update_witness :
    (∀ mean std, -(1 : ℚ) ≤ snRatio 1 1 mean std ∧ snRatio 1 1 mean std ≤ 1)
    ∧ (∀ ps ms ss : List ℚ, ∀ i, ∀ g1 : i < ps.length, ∀ g2 : i < ms.length,
        ∀ g3 : i < ss.length,
        (sngTensorStep 1 1 1 ps ms ss)[i]? =
          some (ps[i] - 1 * snRatio 1 1 ms[i] ss[i]))
    ∧ ∀ ps ms ss : List (List ℚ), ∀ k, ∀ g1 : k < ps.length, ∀ g2 : k < ms.length,
        ∀ g3 : k < ss.length,
        (sngTreeStep 1 1 1 ps ms ss)[k]? =
          some (sngTensorStep 1 1 1 ps[k] ms[k] ss[k]) :=
  sng_clip_and_update 1 1 1 (by decide)

end Sngrad
